import Mathlib

/-!
Verification of the content-transformation pipeline of `crosreleasenotifier`
(`src/main.rs` and `src/decorators.rs`): the line-classification filter and
summary extractor inside `get_releases`, the entry-to-release assembly, and
the two link decorators.

Rust string operations are embedded at the `List Char` level with structural
recursion, so that every definition evaluates inside the kernel.
-/

namespace Cros

/-- Boolean list-prefix test over characters; the semantics of matching a
pattern at the front of a string slice. -/
def isPrefixChars : List Char → List Char → Bool
  | [], _ => true
  | _ :: _, [] => false
  | a :: as, b :: bs => if a = b then isPrefixChars as bs else false

/-- Substring containment over char lists; the semantics of Rust
`str::contains` with a string pattern. -/
def containsSub (pat : List Char) : List Char → Bool
  | [] => pat.isEmpty
  | c :: rest => isPrefixChars pat (c :: rest) || containsSub pat rest

/-- The longest prefix strictly before the first occurrence of `pat` (the
whole list when `pat` does not occur); the semantics of
`s.split(pat).next().unwrap()` in Rust for a nonempty pattern. -/
def takeUntilSub (pat : List Char) : List Char → List Char
  | [] => []
  | c :: rest => if isPrefixChars pat (c :: rest) then [] else c :: takeUntilSub pat rest

/-- The remainder complementary to `takeUntilSub`: the suffix starting at the
first occurrence of `pat`, or `[]` when `pat` does not occur. -/
def dropUntilSub (pat : List Char) : List Char → List Char
  | [] => []
  | c :: rest => if isPrefixChars pat (c :: rest) then c :: rest else dropUntilSub pat rest

/-- Strip leading and trailing whitespace characters; the semantics of Rust
`str::trim` on the ASCII inputs this pipeline sees. -/
def trimChars (s : List Char) : List Char :=
  ((s.dropWhile Char.isWhitespace).reverse.dropWhile Char.isWhitespace).reverse

/-- Embedding of Rust substring containment on strings:
strContains s pat stands for s.contains(pat). -/
def strContains (s pat : String) : Bool :=
  containsSub pat.data s.data

/-- Split on the newline character; the semantics of Rust str split
with a newline pattern (always at least one piece, empty pieces kept). -/
def splitNl : List Char → List (List Char)
  | [] => [[]]
  | c :: rest =>
    if c = '\n' then [] :: splitNl rest
    else
      match splitNl rest with
      | [] => [[c]]
      | l :: ls => (c :: l) :: ls

/-- Join char-list lines with a newline; the semantics of joining the
line vector with a newline separator. -/
def joinNl : List (List Char) → List Char
  | [] => []
  | [l] => l
  | l :: ls => l ++ '\n' :: joinNl ls

/-- The line vector built by get_releases: the parsed text split on the
newline character. -/
def splitLines (s : String) : List String :=
  (splitNl s.data).map String.mk

/-- Joining the filtered lines with newlines, as get_releases does to
build the release content. -/
def joinLines (ls : List String) : String :=
  String.mk (joinNl (ls.map String.data))

/-- Rust Vec dedup on the line vector: remove consecutive repeated
elements, comparing each element only with its immediate neighbour. -/
def dedup : List String → List String
  | [] => []
  | [a] => [a]
  | a :: b :: rest => if a = b then dedup (b :: rest) else a :: dedup (b :: rest)

/-- The update-announcement pattern group of `get_releases` (main.rs
lines 126-133). -/
def isUpdateLine (line : String) : Bool :=
  strContains line "is being updated" || strContains line "has been updated" ||
  strContains line "is updated in" || strContains line "was updated in" ||
  strContains line "has been promoted to" || strContains line "A new LT" ||
  strContains line "The new LT"

/-- The reference-link pattern group of `get_releases` (main.rs
lines 141-142). -/
def isRefLine (line : String) : Bool :=
  strContains line "See the latest release" || strContains line "Release notes for"

/-- The security-fix-boundary pattern group of `get_releases` (main.rs
lines 145-149). -/
def isSecurityLine (line : String) : Bool :=
  strContains line "This update contains selective Security fixes" ||
  strContains line "This update contains selected Security fixes" ||
  strContains line "This update contains multiple Security fixes" ||
  strContains line "ChromeOS Vulnerability Bug Fixes" ||
  strContains line "Security Fixes And Rewards"

/-- The truncation applied to an update line in get_releases (main.rs
lines 134-138): split at "Want to know", take the first piece, trim.
The first piece of the split always exists and is the prefix before the
first occurrence of the pattern (the whole line when the pattern is
absent), so the Rust unwrap_or fallback is unreachable and the result
is that prefix, trimmed. -/
def formatUpdate (line : String) : String :=
  String.mk (trimChars (takeUntilSub "Want to know".data line.data))

/-- The mutable loop state of the classification loop in get_releases:
the should_filter flag, the summary and the accumulated filtered
lines. -/
structure FilterState where
  should_filter : Bool
  summary : String
  filtered : List String
deriving Repr, DecidableEq

/-- One iteration of the `for line in lines.iter()` loop of `get_releases`
(main.rs lines 124-158). -/
def filterStep (st : FilterState) (line : String) : FilterState :=
  if st.should_filter then
    if isUpdateLine line then
      let formatted := formatUpdate line
      { st with summary := formatted, filtered := st.filtered ++ [formatted] }
    else if isRefLine line then
      { st with filtered := st.filtered ++ [line] }
    else if isSecurityLine line then
      { st with filtered := st.filtered ++ ["", line], should_filter := false }
    else
      st
  else
    { st with filtered := st.filtered ++ [line] }

/-- The whole per-entry filter of `get_releases` (main.rs lines 113-163):
split the rendered text into lines; when filtering is on, collapse
consecutive duplicates and drop the last 4 lines; run the classification
loop; return the final summary and the newline-joined filtered body. -/
def runFilter (unfiltered : Bool) (parsed : String) : String × String :=
  let should_filter := !unfiltered
  let lines := splitLines parsed
  let lines := if should_filter then
      let d := dedup lines
      d.take (d.length - 4)
    else lines
  let final := lines.foldl filterStep ⟨should_filter, "", []⟩
  (final.summary, joinLines final.filtered)

/-- The content object of a feed entry: an optional raw HTML body, as
consumed by get_releases. -/
structure EntryContent where
  body : Option String
deriving Repr, DecidableEq

/-- A feed entry as consumed by `get_releases`: optional title text,
optional content, optional updated timestamp, and category terms.
Timestamps are abstracted to integers; only construction and comparison
matter to this pipeline. -/
structure Entry where
  title : Option String
  content : Option EntryContent
  updated : Option Int
  categories : List String
deriving Repr, DecidableEq

/-- The Release record of main.rs lines 74-80. -/
structure Release where
  title : String
  summary : String
  content : String
  timestamp : Int
deriving Repr, DecidableEq

/-- The category filter of `get_releases` (main.rs lines 96-100). -/
def isChromeOS (e : Entry) : Bool :=
  e.categories.any fun t =>
    t = "ChromeOS" || t = "Chrome OS" || t = "ChromeOS Flex" || t = "Chrome OS Flex"

/-- The presence filter of get_releases (main.rs line 101): keep an
entry only when title, content and updated are all present. -/
def entryFields (e : Entry) : Option (String × EntryContent × Int) :=
  match e.title, e.content, e.updated with
  | some t, some c, some u => some (t, c, u)
  | _, _, _ => none

/-- The underline-to-strong rewriting of main.rs line 107, replacing
every occurrence of the opening and closing underline tags.
The Lean String.replace function has the same all-occurrences semantics as the
Rust replace it embeds. -/
def replaceUnderline (body : String) : String :=
  (body.replace "<u>" "<strong>").replace "</u>" "</strong>"

/-- The body of the `map` closure of `get_releases` (main.rs
lines 102-164), with the external HTML renderer `html2md` abstracted as
`render`: rewrite underline tags and render the body when present,
substitute the literal `"No content."` when absent, then run the line
filter and assemble the `Release`. -/
def makeRelease (unfiltered : Bool) (render : String → String)
    (title : String) (content : EntryContent) (updated : Int) : Release :=
  let parsed := match content.body with
    | some b => render (replaceUnderline b)
    | none => "No content."
  let res := runFilter unfiltered parsed
  ⟨title, res.1, res.2, updated⟩

/-- The entry-processing pipeline of `get_releases` (main.rs
lines 93-166): category filter, then presence filter on
title/content/updated, then per-entry rendering and filtering. -/
def getReleases (unfiltered : Bool) (render : String → String)
    (entries : List Entry) : List Release :=
  ((entries.filter isChromeOS).filterMap entryFields).map
    fun x => makeRelease unfiltered render x.1 x.2.1 x.2.2

/-- The Markdown decorator state of decorators.rs lines 3-6: the most
recently recorded link target. -/
structure MdDecorator where
  currentlink : String
deriving Repr, DecidableEq

/-- Constructor of the Markdown decorator (decorators.rs lines 9-13). -/
def MdDecorator.new : MdDecorator := ⟨""⟩

/-- Link-open of the Markdown decorator (decorators.rs lines 19-22):
record the URL as the current link target and emit an opening bracket.
The Rust method mutates self; here the updated state is returned
alongside the emitted text (the unit Annotation value is dropped). -/
def MdDecorator.decorate_link_start (_d : MdDecorator) (url : String) :
    String × MdDecorator :=
  ("[", { currentlink := url })

/-- Link-close of the Markdown decorator (decorators.rs lines 24-26). -/
def MdDecorator.decorate_link_end (d : MdDecorator) : String :=
  "](" ++ d.currentlink ++ ")"

/-- The plain-text decorator state of decorators.rs lines 95-98. -/
structure PlainDecorator where
  currentlink : String
deriving Repr, DecidableEq

/-- Constructor of the plain-text decorator (decorators.rs
lines 101-105). -/
def PlainDecorator.new : PlainDecorator := ⟨""⟩

/-- Link-open of the plain-text decorator (decorators.rs
lines 111-114): record the URL, emit the empty string. -/
def PlainDecorator.decorate_link_start (_d : PlainDecorator) (url : String) :
    String × PlainDecorator :=
  ("", { currentlink := url })

/-- Link-close of the plain-text decorator (decorators.rs
lines 116-118). -/
def PlainDecorator.decorate_link_end (d : PlainDecorator) : String :=
  " (" ++ d.currentlink ++ ")"

/-- A line that fires the security-fix-boundary branch of the classifier:
it matches the security group and neither of the two higher-priority
groups, so processing it turns the filter off. -/
def deactivates (l : String) : Bool :=
  !isUpdateLine l && !isRefLine l && isSecurityLine l

/-! ## Helper lemmas -/

theorem isPrefixChars_append (p : List Char) :
    ∀ x y : List Char, isPrefixChars p x = true → isPrefixChars p (x ++ y) = true := by
  induction p with
  | nil => intro x y _; rfl
  | cons a as ih =>
    intro x y hx
    cases x with
    | nil => simp [isPrefixChars] at hx
    | cons b bs =>
      rw [List.cons_append]
      rw [isPrefixChars] at hx ⊢
      by_cases hab : a = b
      · rw [if_pos hab] at hx ⊢
        exact ih bs y hx
      · rw [if_neg hab] at hx
        exact absurd hx (by simp)

theorem takeUntil_append_dropUntil (pat : List Char) :
    ∀ s : List Char, takeUntilSub pat s ++ dropUntilSub pat s = s := by
  intro s
  induction s with
  | nil => rfl
  | cons c rest ih =>
    by_cases hp : isPrefixChars pat (c :: rest) = true
    · simp [takeUntilSub, dropUntilSub, hp]
    · simp [takeUntilSub, dropUntilSub, hp, ih]

theorem dropUntil_match (pat : List Char) :
    ∀ s : List Char, dropUntilSub pat s = [] ∨
      isPrefixChars pat (dropUntilSub pat s) = true := by
  intro s
  induction s with
  | nil => exact Or.inl rfl
  | cons c rest ih =>
    by_cases hp : isPrefixChars pat (c :: rest) = true
    · right; rw [dropUntilSub, if_pos hp]; exact hp
    · simpa [dropUntilSub, hp] using ih

theorem not_contains_takeUntil (pat : List Char) (hne : pat ≠ []) :
    ∀ s : List Char, containsSub pat (takeUntilSub pat s) = false := by
  have hstart : containsSub pat [] = false := by
    cases pat with
    | nil => exact absurd rfl hne
    | cons a as => rfl
  intro s
  induction s with
  | nil => simpa [takeUntilSub] using hstart
  | cons c rest ih =>
    by_cases hp : isPrefixChars pat (c :: rest) = true
    · simpa [takeUntilSub, hp] using hstart
    · rw [takeUntilSub, if_neg hp]
      cases hpc : isPrefixChars pat (c :: takeUntilSub pat rest) with
      | false => simpa [containsSub, hpc] using ih
      | true =>
        exfalso
        have hmono := isPrefixChars_append pat
          (c :: takeUntilSub pat rest) (dropUntilSub pat rest) hpc
        rw [List.cons_append, takeUntil_append_dropUntil] at hmono
        exact hp hmono

theorem filterStep_update (st : FilterState) (l : String)
    (h : st.should_filter = true) (hu : isUpdateLine l = true) :
    filterStep st l = ⟨true, formatUpdate l, st.filtered ++ [formatUpdate l]⟩ := by
  cases st; simp_all [filterStep]

theorem filterStep_ref (st : FilterState) (l : String)
    (h : st.should_filter = true) (hu : isUpdateLine l = false)
    (hr : isRefLine l = true) :
    filterStep st l = ⟨true, st.summary, st.filtered ++ [l]⟩ := by
  cases st; simp_all [filterStep]

theorem filterStep_security (st : FilterState) (l : String)
    (h : st.should_filter = true) (hu : isUpdateLine l = false)
    (hr : isRefLine l = false) (hs : isSecurityLine l = true) :
    filterStep st l = ⟨false, st.summary, st.filtered ++ ["", l]⟩ := by
  cases st; simp_all [filterStep]

theorem filterStep_drop (st : FilterState) (l : String)
    (h : st.should_filter = true) (hu : isUpdateLine l = false)
    (hr : isRefLine l = false) (hs : isSecurityLine l = false) :
    filterStep st l = st := by
  cases st; simp_all [filterStep]

theorem foldl_filterStep_inactive (ls : List String) :
    ∀ st : FilterState, st.should_filter = false →
      List.foldl filterStep st ls = ⟨false, st.summary, st.filtered ++ ls⟩ := by
  induction ls with
  | nil => intro st h; cases st; simp_all
  | cons l tl ih =>
    intro st h
    have hstep : filterStep st l = ⟨false, st.summary, st.filtered ++ [l]⟩ := by
      cases st; simp_all [filterStep]
    rw [List.foldl_cons, hstep, ih _ rfl]
    simp

theorem splitNl_ne_nil (l : List Char) : splitNl l ≠ [] := by
  cases l with
  | nil => simp [splitNl]
  | cons c rest =>
    rw [splitNl]
    split
    · simp
    · split <;> simp

theorem joinNl_splitNl (l : List Char) : joinNl (splitNl l) = l := by
  induction l with
  | nil => rfl
  | cons c rest ih =>
    by_cases hc : c = '\n'
    · rw [splitNl, if_pos hc]
      cases hs : splitNl rest with
      | nil => exact absurd hs (splitNl_ne_nil rest)
      | cons y ys =>
        rw [hs] at ih
        rw [joinNl, List.nil_append, ih, hc]
        simp
    · rw [splitNl, if_neg hc]
      cases hs : splitNl rest with
      | nil => exact absurd hs (splitNl_ne_nil rest)
      | cons y ys =>
        rw [hs] at ih
        cases ys with
        | nil => rw [joinNl]; rw [joinNl] at ih; rw [ih]
        | cons z zs =>
          rw [joinNl, List.cons_append]
          · rw [joinNl] at ih
            · rw [ih]
            · simp
          · simp

theorem joinLines_splitLines (s : String) : joinLines (splitLines s) = s := by
  unfold joinLines splitLines
  rw [List.map_map]
  have hdm : (String.data ∘ String.mk) = id := rfl
  rw [hdm, List.map_id, joinNl_splitNl]

theorem deactivates_false_parts (a : String) (hd : deactivates a = false)
    (hu : isUpdateLine a = false) (hr : isRefLine a = false) :
    isSecurityLine a = false := by
  simpa [deactivates, hu, hr] using hd

theorem foldl_summary_stable (ls : List String) :
    ∀ st : FilterState, st.should_filter = true →
      (ls.takeWhile fun l => !deactivates l).filter isUpdateLine = [] →
      (List.foldl filterStep st ls).summary = st.summary := by
  induction ls with
  | nil => intro st _ _; rfl
  | cons a tl ih =>
    intro st h hemp
    by_cases hd : deactivates a = true
    · have hparts : (isUpdateLine a = false ∧ isRefLine a = false) ∧
          isSecurityLine a = true := by
        simpa [deactivates] using hd
      rw [List.foldl_cons,
        filterStep_security st a h hparts.1.1 hparts.1.2 hparts.2,
        foldl_filterStep_inactive tl _ rfl]
    · have hd' : deactivates a = false := by simpa using hd
      rw [List.takeWhile_cons] at hemp
      rw [hd'] at hemp
      simp only [Bool.not_false, if_pos] at hemp
      rw [List.filter_cons] at hemp
      have hua : isUpdateLine a = false := by
        by_contra hcon
        rw [eq_true_of_ne_false hcon, if_pos rfl] at hemp
        exact List.cons_ne_nil _ _ hemp
      rw [hua] at hemp
      simp only [Bool.false_eq_true, if_neg, if_false] at hemp
      by_cases hra : isRefLine a = true
      · rw [List.foldl_cons, filterStep_ref st a h hua hra]
        exact ih ⟨true, st.summary, st.filtered ++ [a]⟩ rfl hemp
      · have hra' : isRefLine a = false := by simpa using hra
        have hsa : isSecurityLine a = false := deactivates_false_parts a hd' hua hra'
        rw [List.foldl_cons, filterStep_drop st a h hua hra' hsa]
        exact ih st h hemp

theorem foldl_summary_last (u : String) (ls : List String) :
    ∀ st : FilterState, st.should_filter = true →
      ((ls.takeWhile fun l => !deactivates l).filter isUpdateLine).getLast? = some u →
      (List.foldl filterStep st ls).summary = formatUpdate u := by
  induction ls with
  | nil => intro st _ hu; simp at hu
  | cons a tl ih =>
    intro st h hu
    by_cases hd : deactivates a = true
    · rw [List.takeWhile_cons, hd] at hu
      simp at hu
    · have hd' : deactivates a = false := by simpa using hd
      rw [List.takeWhile_cons, hd'] at hu
      simp only [Bool.not_false, if_pos] at hu
      rw [List.filter_cons] at hu
      by_cases hua : isUpdateLine a = true
      · rw [hua] at hu
        simp only [if_pos] at hu
        cases hrest : (tl.takeWhile fun l => !deactivates l).filter isUpdateLine with
        | nil =>
          rw [hrest] at hu
          have hau : a = u := by simpa using hu
          rw [List.foldl_cons, filterStep_update st a h hua,
            foldl_summary_stable tl _ rfl hrest, hau]
        | cons x xs =>
          rw [hrest, List.getLast?_cons_cons] at hu
          rw [List.foldl_cons, filterStep_update st a h hua]
          exact ih _ rfl (by rw [hrest]; exact hu)
      · have hua' : isUpdateLine a = false := by simpa using hua
        rw [hua'] at hu
        simp only [Bool.false_eq_true, if_neg, if_false] at hu
        by_cases hra : isRefLine a = true
        · rw [List.foldl_cons, filterStep_ref st a h hua' hra]
          exact ih ⟨true, st.summary, st.filtered ++ [a]⟩ rfl hu
        · have hra' : isRefLine a = false := by simpa using hra
          have hsa : isSecurityLine a = false := deactivates_false_parts a hd' hua' hra'
          rw [List.foldl_cons, filterStep_drop st a h hua' hra' hsa]
          exact ih st h hu

theorem dedup_cons (a : String) (l : List String) :
    ∃ t, dedup (a :: l) = a :: t := by
  induction l generalizing a with
  | nil => exact ⟨[], rfl⟩
  | cons b bs ih =>
    by_cases hab : a = b
    · obtain ⟨t, ht⟩ := ih b
      refine ⟨t, ?_⟩
      rw [dedup, if_pos hab, ht, hab]
    · exact ⟨dedup (b :: bs), by rw [dedup, if_neg hab]⟩

/-! ## Claim theorems -/

/-- Claim C1: a feed entry lacking a title, a content object, or an
updated timestamp produces no Release: deleting such an entry from the
input leaves the pipeline output unchanged (the entry is silently
skipped, not an error). -/
theorem c1_missing_fields_produce_no_release
    (unfiltered : Bool) (render : String → String)
    (pre post : List Entry) (e : Entry)
    (h : e.title = none ∨ e.content = none ∨ e.updated = none) :
    getReleases unfiltered render (pre ++ e :: post) =
      getReleases unfiltered render (pre ++ post) := by
  have hf : entryFields e = none := by
    obtain ⟨t, c, u, cats⟩ := e
    cases t <;> cases c <;> cases u <;> simp_all [entryFields]
  unfold getReleases
  by_cases hc : isChromeOS e = true
  · simp [List.filter_append, List.filter_cons, hc,
      List.filterMap_append, List.filterMap_cons, hf]
  · simp [List.filter_append, List.filter_cons, hc]

/-- Witness for C1: a concrete entry with all three optional fields
absent yields no Release. -/
theorem c1_witness :
    getReleases false (fun s => s) [⟨none, none, none, ["ChromeOS"]⟩] = [] :=
  (c1_missing_fields_produce_no_release false (fun s => s) [] []
    ⟨none, none, none, ["ChromeOS"]⟩ (Or.inl rfl)).trans rfl

/-- Claim C2: one-way filter latch. Classifying a security-fix-boundary
line while filtering is active appends one empty line and the line
unmodified and turns filtering off; from there every subsequent line of
the entry is appended verbatim, whatever its content, and
`should_filter` never becomes true again. -/
theorem c2_security_latch
    (st : FilterState) (l : String) (h : st.should_filter = true)
    (hu : isUpdateLine l = false) (hr : isRefLine l = false)
    (hs : isSecurityLine l = true) :
    filterStep st l = ⟨false, st.summary, st.filtered ++ ["", l]⟩ ∧
    ∀ rest : List String,
      List.foldl filterStep (filterStep st l) rest =
        ⟨false, st.summary, (st.filtered ++ ["", l]) ++ rest⟩ := by
  have hstep := filterStep_security st l h hu hr hs
  refine ⟨hstep, fun rest => ?_⟩
  rw [hstep, foldl_filterStep_inactive rest _ rfl]

/-- Witness for C2: after a concrete security-boundary line the filter
stays off and later lines — even one matching an update pattern — pass
through verbatim. -/
theorem c2_witness :
    List.foldl filterStep
      (filterStep ⟨true, "s", ["x"]⟩ "Security Fixes And Rewards")
      ["k has been updated", "junk"] =
    ⟨false, "s",
      ["x", "", "Security Fixes And Rewards", "k has been updated", "junk"]⟩ := by
  have h := c2_security_latch ⟨true, "s", ["x"]⟩ "Security Fixes And Rewards"
    rfl (by decide) (by decide) (by decide)
  rw [h.2 ["k has been updated", "junk"]]
  rfl

/-- Claim C3: with filtering enabled the preprocessing collapses
consecutive duplicates and then drops the last 4 lines; whenever fewer
than 4 lines survive duplicate-collapse, every line is dropped and the
filter returns an empty summary and an empty body, without error. -/
theorem c3_truncation_floor (parsed : String)
    (h : (dedup (splitLines parsed)).length < 4) :
    runFilter false parsed = ("", "") := by
  have h0 : (dedup (splitLines parsed)).length - 4 = 0 :=
    Nat.sub_eq_zero_of_le (Nat.le_of_lt h)
  unfold runFilter
  simp [h0]
  rfl

/-- Witness for C3: three input lines collapse to two, fewer than 4, and
the filtered output is empty. -/
theorem c3_witness : runFilter false "a\na\nb" = ("", "") :=
  c3_truncation_floor "a\na\nb" (by decide)

/-- Claim C4: disabled-filter bypass. With `unfiltered = true` the line
filter performs no dedup, no truncation and no classification: the body
is byte-identical to the rendered input and the summary is empty. -/
theorem c4_disabled_bypass (parsed : String) :
    runFilter true parsed = ("", parsed) := by
  show ((List.foldl filterStep ⟨false, "", []⟩ (splitLines parsed)).summary,
    joinLines (List.foldl filterStep ⟨false, "", []⟩ (splitLines parsed)).filtered) =
    ("", parsed)
  rw [foldl_filterStep_inactive (splitLines parsed) _ rfl]
  simp [joinLines_splitLines]

/-- Claim C5: the update-announcement action. With filtering active, a
line matching an update pattern is cut at the first occurrence of
"Want to know" (the whole line when absent), trimmed; the result is
written to the summary and appended to the output. The cut point is
genuinely the first occurrence: the kept part is a prefix of the line,
the discarded part (when nonempty) starts with the pattern, and the kept
part contains no occurrence of the pattern. -/
theorem c5_update_line_action (st : FilterState) (l : String)
    (h : st.should_filter = true) (hu : isUpdateLine l = true) :
    (filterStep st l).summary = formatUpdate l ∧
    (filterStep st l).filtered = st.filtered ++ [formatUpdate l] ∧
    (filterStep st l).should_filter = true ∧
    formatUpdate l = String.mk (trimChars (takeUntilSub "Want to know".data l.data)) ∧
    takeUntilSub "Want to know".data l.data ++
      dropUntilSub "Want to know".data l.data = l.data ∧
    (dropUntilSub "Want to know".data l.data = [] ∨
      isPrefixChars "Want to know".data
        (dropUntilSub "Want to know".data l.data) = true) ∧
    containsSub "Want to know".data (takeUntilSub "Want to know".data l.data) = false := by
  have hstep := filterStep_update st l h hu
  rw [hstep]
  exact ⟨rfl, rfl, rfl, rfl,
    takeUntil_append_dropUntil _ l.data,
    dropUntil_match _ l.data,
    not_contains_takeUntil _ (by decide) l.data⟩

/-- Witness for C5: the example line from the specification is truncated at
"Want to know" and trimmed, giving both the summary and the retained
line. -/
theorem c5_witness :
    (filterStep ⟨true, "", []⟩
        "ChromeOS 120 has been updated to 15.0. Want to know more? See release notes.").summary =
      "ChromeOS 120 has been updated to 15.0." ∧
    (filterStep ⟨true, "", []⟩
        "ChromeOS 120 has been updated to 15.0. Want to know more? See release notes.").filtered =
      ["ChromeOS 120 has been updated to 15.0."] := by
  have h := c5_update_line_action ⟨true, "", []⟩
    "ChromeOS 120 has been updated to 15.0. Want to know more? See release notes."
    rfl (by decide)
  refine ⟨?_, ?_⟩
  · rw [h.1]; decide
  · rw [h.2.1]; decide

/-- Counterexample to claim C6 as stated: an entry whose walked lines
are an update line, then a security-fix-boundary line, then a second
update line. The final summary is the truncated form of the FIRST
update line, because the security line turned filtering off and the
second update line passed through without writing the summary. -/
theorem c6_counterexample :
    isUpdateLine "x has been updated A" = true ∧
    isUpdateLine "x has been updated B" = true ∧
    (runFilter false
      "x has been updated A\nSecurity Fixes And Rewards\nx has been updated B\np\nq\nr\ns").1 =
      "x has been updated A" ∧
    formatUpdate "x has been updated B" = "x has been updated B" ∧
    ("x has been updated A" : String) ≠ "x has been updated B" := by
  decide

/-- Claim C6 (amended): with filtering enabled, the final summary equals
the truncated form of the last update-announcement line encountered
while filtering was still active — i.e. the last update line among the
lines preceding the first line that fires the security-fix-boundary
branch — not necessarily the last update line of the whole entry; and
only update-pattern lines processed while filtering is active ever write
the summary. -/
theorem c6_summary_last_active_update (st : FilterState) (ls : List String)
    (u : String) (h : st.should_filter = true)
    (hu : ((ls.takeWhile fun l => !deactivates l).filter isUpdateLine).getLast? =
      some u) :
    (∀ (st' : FilterState) (l' : String),
        (st'.should_filter = true → isUpdateLine l' = false) →
        (filterStep st' l').summary = st'.summary) ∧
    (List.foldl filterStep st ls).summary = formatUpdate u := by
  refine ⟨fun st' l' hl => ?_, foldl_summary_last u ls st h hu⟩
  by_cases hsf : st'.should_filter = true
  · have hu' := hl hsf
    obtain ⟨sf, sm, fl⟩ := st'
    simp only at hsf
    subst hsf
    by_cases hr : isRefLine l' = true
    · simp [filterStep, hu', hr]
    · by_cases hsec : isSecurityLine l' = true
      · simp [filterStep, hu', hr, hsec]
      · simp [filterStep, hu', hr, hsec]
  · have hsf' : st'.should_filter = false := by simpa using hsf
    obtain ⟨sf, sm, fl⟩ := st'
    simp only at hsf'
    subst hsf'
    simp [filterStep]

/-- Witness for the amended C6: with two update lines and no security
boundary, the later update line wins the summary. -/
theorem c6_witness :
    (List.foldl filterStep ⟨true, "", []⟩
      ["a has been updated", "b has been updated"]).summary =
    "b has been updated" := by
  have h := c6_summary_last_active_update ⟨true, "", []⟩
    ["a has been updated", "b has been updated"] "b has been updated"
    rfl (by decide)
  rw [h.2]; decide

/-- Claim C7: classification priority. While filtering is active, a line
matching an update-announcement pattern takes the update branch even
when it simultaneously matches a security-fix-boundary pattern — the
line is truncated, written to the summary and appended, and
`should_filter` stays true. Likewise a non-update line matching the
reference-link pattern is appended without the security side effect,
completing the priority order update > reference-link > security. -/
theorem c7_update_wins_over_security (st : FilterState) (l : String)
    (h : st.should_filter = true) (hu : isUpdateLine l = true)
    (hs : isSecurityLine l = true) :
    filterStep st l = ⟨true, formatUpdate l, st.filtered ++ [formatUpdate l]⟩ ∧
    (∀ l' : String, isUpdateLine l' = false → isRefLine l' = true →
      filterStep st l' = ⟨true, st.summary, st.filtered ++ [l']⟩) := by
  exact ⟨filterStep_update st l h hu, fun l' hu' hr' => filterStep_ref st l' h hu' hr'⟩

/-- Witness for C7: a line containing both "has been updated" and
"ChromeOS Vulnerability Bug Fixes" takes the update branch and leaves
filtering on; a line containing both "Release notes for" and "Security
Fixes And Rewards" takes the reference branch and leaves filtering on. -/
theorem c7_witness :
    filterStep ⟨true, "", []⟩
        "x has been updated ChromeOS Vulnerability Bug Fixes" =
      ⟨true, "x has been updated ChromeOS Vulnerability Bug Fixes",
        ["x has been updated ChromeOS Vulnerability Bug Fixes"]⟩ ∧
    filterStep ⟨true, "", []⟩
        "Release notes for Security Fixes And Rewards" =
      ⟨true, "", ["Release notes for Security Fixes And Rewards"]⟩ := by
  have h := c7_update_wins_over_security ⟨true, "", []⟩
    "x has been updated ChromeOS Vulnerability Bug Fixes"
    rfl (by decide) (by decide)
  constructor
  · rw [h.1]; decide
  · rw [h.2 "Release notes for Security Fixes And Rewards" (by decide) (by decide)]
    rfl

/-- Claim C8: link decoration contract. For every URL, the rich
(Markdown) policy link-open emits "[" and records the URL, and the
matching link-close then emits "](url)"; the plain policy link-open emits ""
and records the URL, and its link-close then emits " (url)"; a close
with no prior open uses the default empty target. -/
theorem c8_link_decoration (url : String) (m : MdDecorator) (p : PlainDecorator) :
    (m.decorate_link_start url).1 = "[" ∧
    (m.decorate_link_start url).2.currentlink = url ∧
    (m.decorate_link_start url).2.decorate_link_end = "](" ++ url ++ ")" ∧
    (p.decorate_link_start url).1 = "" ∧
    (p.decorate_link_start url).2.currentlink = url ∧
    (p.decorate_link_start url).2.decorate_link_end = " (" ++ url ++ ")" ∧
    MdDecorator.new.decorate_link_end = "]()" ∧
    PlainDecorator.new.decorate_link_end = " ()" :=
  ⟨rfl, rfl, rfl, rfl, rfl, rfl, by decide, by decide⟩

/-- Claim C9: consecutive-duplicate removal is idempotent. -/
theorem c9_dedup_idempotent (ls : List String) : dedup (dedup ls) = dedup ls := by
  induction ls with
  | nil => rfl
  | cons a l ih =>
    cases l with
    | nil => rfl
    | cons b bs =>
      by_cases hab : a = b
      · rw [dedup, if_pos hab]
        exact ih
      · rw [dedup, if_neg hab]
        obtain ⟨t, ht⟩ := dedup_cons b bs
        rw [ht, dedup, if_neg hab]
        rw [ht] at ih
        rw [ih]

/-- Claim C10: an entry with a title, a timestamp and a content object
whose body is absent still produces a Release, rendered from the literal
"No content.": with filtering disabled the body is "No content.", with
filtering enabled it is empty (and the summary is empty in both). -/
theorem c10_missing_body_no_content (render : String → String) (t : String)
    (u : Int) (cats : List String)
    (h : isChromeOS ⟨some t, some ⟨none⟩, some u, cats⟩ = true) :
    getReleases true render [⟨some t, some ⟨none⟩, some u, cats⟩] =
      [⟨t, "", "No content.", u⟩] ∧
    getReleases false render [⟨some t, some ⟨none⟩, some u, cats⟩] =
      [⟨t, "", "", u⟩] := by
  have h1 : runFilter true "No content." = ("", "No content.") := by decide
  have h2 : runFilter false "No content." = ("", "") := by decide
  constructor <;>
    simp [getReleases, List.filter_cons, h, entryFields, makeRelease, h1, h2]

/-- Witness for C10: a concrete body-less ChromeOS entry. -/
theorem c10_witness :
    getReleases true (fun s => s) [⟨some "T", some ⟨none⟩, some 0, ["ChromeOS"]⟩] =
      [⟨"T", "", "No content.", 0⟩] ∧
    getReleases false (fun s => s) [⟨some "T", some ⟨none⟩, some 0, ["ChromeOS"]⟩] =
      [⟨"T", "", "", 0⟩] :=
  c10_missing_body_no_content (fun s => s) "T" 0 ["ChromeOS"] (by decide)

end Cros
